import Mathlib

/-!
Verification of the gokv/store key-value store contract.

The repository (src/doc.go and its revisions) declares a `Store` interface
together with documented semantics, but ships no implementation.  Following
the spec (sections 3, 4 and 8 of spec.md), we build the reference in-memory
store the spec describes — a finite map from string keys to records carrying
an opaque serialized value and an optional absolute expiry instant, with
lazy expiry enforced at read time — and prove the spec's testable
properties about it.

Time is modelled by natural-number instants; serialized values are opaque
naturals.  A record whose expiry instant `t` satisfies `t < now` is expired
and must be treated as absent by every read operation.
-/

namespace GokvStore

/-- Modelled from the spec: a Record (spec.md section 3) pairs an opaque
serialized value with an optional absolute expiry instant.  `expiry = none`
means the record never expires. -/
structure Record where
  val : Nat
  expiry : Option Nat
deriving Repr, DecidableEq

/-- Modelled from the spec: the store state is a finite map from unique
string keys to records; we represent it as an association list. -/
abbrev StoreState := List (String × Record)

/-- Modelled from the spec: a record is live at instant `now` unless the
current time has passed its expiry instant ("once the current time passes
the expiry instant, the record is treated as absent"). -/
def isLive (now : Nat) (r : Record) : Bool :=
  match r.expiry with
  | none => true
  | some t => decide (now ≤ t)

/-- Look up the record bound to `k`, expired or not. -/
def findRec (s : StoreState) (k : String) : Option Record :=
  match s with
  | [] => none
  | (k1, r) :: rest => if k1 = k then some r else findRec rest k

/-- Bind `k` to `r`, overwriting any existing binding for `k`. -/
def insertRec (s : StoreState) (k : String) (r : Record) : StoreState :=
  match s with
  | [] => [(k, r)]
  | (k1, r1) :: rest =>
      if k1 = k then (k, r) :: rest else (k1, r1) :: insertRec rest k r

/-- Remove every binding for `k`. -/
def removeRec (s : StoreState) (k : String) : StoreState :=
  s.filter (fun p => decide (p.1 ≠ k))

/-- Errors of the third revision of the contract (src/doc.go lines 161-169). -/
inductive StoreErr where
  | errNoRows
  | errKeyExists
deriving Repr, DecidableEq

/-- Result of `Get`: the found flag, the decoded value when found, and the
error (absence is reported through the flag, never as an error). -/
structure GetResult where
  ok : Bool
  value : Option Nat
  err : Option StoreErr
deriving Repr, DecidableEq

/-- Modelled from the spec: `Get(key, decodeTarget)` — "looks up key; if
absent, returns found=false and no error; if present, decodes the stored
bytes into decodeTarget".  Expiry is enforced at read time. -/
def get (s : StoreState) (now : Nat) (k : String) : GetResult :=
  match findRec s k with
  | none => ⟨false, none, none⟩
  | some r => if isLive now r then ⟨true, some r.val, none⟩ else ⟨false, none, none⟩

/-- Modelled from the spec: `Set(key, value)` — "unconditional upsert,
creates or overwrites; idempotent". -/
def set (s : StoreState) (k : String) (v : Nat) : StoreState :=
  insertRec s k ⟨v, none⟩

/-- Modelled from the spec: `SetWithTimeout(key, value, duration)` — "upsert
whose expiry instant is computed as call time + duration; the lifespan clock
starts at call time". -/
def setWithTimeout (s : StoreState) (now : Nat) (k : String) (v : Nat) (d : Nat) :
    StoreState :=
  insertRec s k ⟨v, some (now + d)⟩

/-- Modelled from the spec: `SetWithDeadline(key, value, absoluteTime)` —
"upsert with an explicit expiry instant, independent of call time". -/
def setWithDeadline (s : StoreState) (k : String) (v : Nat) (t : Nat) : StoreState :=
  insertRec s k ⟨v, some t⟩

/-- Modelled from the spec: `Add(key, value)` — "creates a new record only
if key does not already exist; fails with KeyExists if the key is already
present" (src/doc.go lines 184-186); an expired record counts as absent. -/
def add (s : StoreState) (now : Nat) (k : String) (v : Nat) :
    StoreState × Option StoreErr :=
  match findRec s k with
  | some r =>
      if isLive now r then (s, some .errKeyExists)
      else (insertRec s k ⟨v, none⟩, none)
  | none => (insertRec s k ⟨v, none⟩, none)

/-- Modelled from the spec: `Update(key, value)` — "mutates only if the key
currently exists; never creates", reporting existence through a boolean
flag (src/doc.go lines 52-55). -/
def update (s : StoreState) (now : Nat) (k : String) (v : Nat) :
    StoreState × Bool :=
  match findRec s k with
  | some r =>
      if isLive now r then (insertRec s k ⟨v, r.expiry⟩, true) else (s, false)
  | none => (s, false)

/-- Modelled from the spec: `Delete(key)` under the existence-reporting
policy (src/doc.go lines 57-60): removes the key and reports whether a live
record existed; the error is nil either way. -/
def delete (s : StoreState) (now : Nat) (k : String) :
    StoreState × Bool × Option StoreErr :=
  match findRec s k with
  | some r => (removeRec s k, isLive now r, none)
  | none => (s, false, none)

/-- Modelled from the spec: `Del(key)` under the idempotent policy
(src/doc.go lines 128-130): removes the key unconditionally, never erring
on an absent key. -/
def del (s : StoreState) (k : String) : StoreState × Option StoreErr :=
  (removeRec s k, none)

/-- Modelled from the spec: `Keys` — enumeration of currently-live keys. -/
def keys (s : StoreState) (now : Nat) : List String :=
  (s.filter (fun p => isLive now p.2)).map Prod.fst

/-- Modelled from the spec: a Collection (spec.md sections 3 and 4.2) is a
caller-owned sink; `items` records the decoded elements appended so far and
`newCalls` counts the invocations of `Collection.New`. -/
structure Collection where
  items : List Nat
  newCalls : Nat
deriving Repr, DecidableEq

/-- One emission step of `GetAll`: call `Collection.New` once to allocate
the next slot, then decode the record's value into it. -/
def collEmit (c : Collection) (v : Nat) : Collection :=
  ⟨c.items ++ [v], c.newCalls + 1⟩

/-- Modelled from the spec: `GetAll(collection)` — "for every live
(non-expired) record, requests a decode target from collection and decodes
into it". -/
def getAll (s : StoreState) (now : Nat) (c : Collection) : Collection :=
  match s with
  | [] => c
  | (_, r) :: rest =>
      if isLive now r then getAll rest now (collEmit c r.val) else getAll rest now c

/-- The live entries of the store at instant `now`: exactly what the read
operations may observe. -/
def liveEntries (s : StoreState) (now : Nat) : StoreState :=
  s.filter (fun p => isLive now p.2)

/-- The operations of the contract, for building reachable states. -/
inductive Op where
  | set (k : String) (v : Nat)
  | add (k : String) (v : Nat)
  | setWithTimeout (k : String) (v : Nat) (d : Nat)
  | setWithDeadline (k : String) (v : Nat) (t : Nat)
  | update (k : String) (v : Nat)
  | delete (k : String)
  | del (k : String)
deriving Repr, DecidableEq

/-- State transition of a single operation invoked at instant `now`. -/
def applyOp (s : StoreState) (now : Nat) : Op → StoreState
  | .set k v => set s k v
  | .add k v => (add s now k v).1
  | .setWithTimeout k v d => setWithTimeout s now k v d
  | .setWithDeadline k v t => setWithDeadline s k v t
  | .update k v => (update s now k v).1
  | .delete k => (delete s now k).1
  | .del k => (del s k).1

/-- Run a timestamped trace of operations from a starting state. -/
def runOps (s : StoreState) : List (Nat × Op) → StoreState
  | [] => s
  | (t, o) :: rest => runOps (applyOp s t o) rest

/-- A store state is reachable when some trace of operations produces it
from the empty store. -/
def Reachable (s : StoreState) : Prop :=
  ∃ ops : List (Nat × Op), runOps [] ops = s

/-- Whether an operation writes a value under key `k`: the four upsert
variants write to their key; `Update` never creates a key and `Delete`,
`Del` only remove. -/
def Op.writesTo (o : Op) (k : String) : Bool :=
  match o with
  | .set k1 _ => k1 == k
  | .add k1 _ => k1 == k
  | .setWithTimeout k1 _ _ => k1 == k
  | .setWithDeadline k1 _ _ => k1 == k
  | .update _ _ => false
  | .delete _ => false
  | .del _ => false

/-! ### Association-list lemmas -/

theorem findRec_insertRec_self (s : StoreState) (k : String) (r : Record) :
    findRec (insertRec s k r) k = some r := by
  induction s with
  | nil => simp [insertRec, findRec]
  | cons p rest ih =>
      obtain ⟨k1, r1⟩ := p
      by_cases h : k1 = k
      · simp [insertRec, findRec, h]
      · simp [insertRec, findRec, h, ih]

theorem findRec_insertRec_ne (s : StoreState) (k1 k : String) (r : Record)
    (h : k1 ≠ k) : findRec (insertRec s k1 r) k = findRec s k := by
  induction s with
  | nil => simp [insertRec, findRec, h]
  | cons p rest ih =>
      obtain ⟨k2, r2⟩ := p
      by_cases h2 : k2 = k1
      · subst h2
        simp [insertRec, findRec, h]
      · by_cases h3 : k2 = k
        · simp [insertRec, findRec, h2, h3, Ne.symm h]
        · simp [insertRec, findRec, h2, h3, ih]

theorem findRec_eq_none_iff (s : StoreState) (k : String) :
    findRec s k = none ↔ ∀ p ∈ s, p.1 ≠ k := by
  induction s with
  | nil => simp [findRec]
  | cons p rest ih =>
      obtain ⟨k1, r1⟩ := p
      by_cases h : k1 = k
      · simp [findRec, h]
      · simp [findRec, h, ih]

theorem findRec_removeRec_none (s : StoreState) (k k1 : String)
    (h : findRec s k = none) : findRec (removeRec s k1) k = none := by
  rw [findRec_eq_none_iff] at h ⊢
  intro p hp
  exact h p (List.mem_of_mem_filter hp)

theorem findRec_removeRec_self (s : StoreState) (k : String) :
    findRec (removeRec s k) k = none := by
  rw [findRec_eq_none_iff]
  intro p hp
  have := List.of_mem_filter hp
  simpa using this

theorem mem_insertRec (s : StoreState) (k : String) (r : Record)
    (p : String × Record) (hp : p ∈ insertRec s k r) : p = (k, r) ∨ p ∈ s := by
  induction s with
  | nil => simpa [insertRec] using hp
  | cons q rest ih =>
      obtain ⟨k1, r1⟩ := q
      by_cases h : k1 = k
      · simp only [insertRec, if_pos h] at hp
        rcases List.mem_cons.mp hp with h1 | h1
        · exact Or.inl h1
        · exact Or.inr (List.mem_cons_of_mem _ h1)
      · simp only [insertRec, if_neg h] at hp
        rcases List.mem_cons.mp hp with h1 | h1
        · exact Or.inr (h1 ▸ List.mem_cons_self _ _)
        · rcases ih h1 with h2 | h2
          · exact Or.inl h2
          · exact Or.inr (List.mem_cons_of_mem _ h2)

theorem nodup_keys_insertRec (s : StoreState) (k : String) (r : Record)
    (h : (s.map Prod.fst).Nodup) : ((insertRec s k r).map Prod.fst).Nodup := by
  induction s with
  | nil => simp [insertRec]
  | cons p rest ih =>
      obtain ⟨k1, r1⟩ := p
      simp only [List.map_cons, List.nodup_cons] at h
      by_cases hk : k1 = k
      · subst hk
        simpa [insertRec, List.nodup_cons] using h
      · have h2 := ih h.2
        simp only [insertRec, if_neg hk, List.map_cons, List.nodup_cons]
        refine ⟨?_, h2⟩
        intro hmem
        rcases List.mem_map.mp hmem with ⟨q, hq, hfst⟩
        rcases mem_insertRec rest k r q hq with h3 | h3
        · exact hk (by rw [h3] at hfst; exact hfst.symm)
        · exact h.1 (List.mem_map.mpr ⟨q, h3, hfst⟩)

theorem nodup_keys_filter (s : StoreState) (q : String × Record → Bool)
    (h : (s.map Prod.fst).Nodup) : ((s.filter q).map Prod.fst).Nodup :=
  ((List.filter_sublist s).map Prod.fst).nodup h

theorem findRec_of_mem_nodup (s : StoreState) (k : String) (r : Record)
    (hnd : (s.map Prod.fst).Nodup) (hmem : (k, r) ∈ s) : findRec s k = some r := by
  induction s with
  | nil => simp at hmem
  | cons p rest ih =>
      obtain ⟨k1, r1⟩ := p
      simp only [List.map_cons, List.nodup_cons] at hnd
      rcases List.mem_cons.mp hmem with h1 | h1
      · obtain ⟨hk, hr⟩ := Prod.mk.injEq .. ▸ h1
        simp [findRec, hk.symm, hr]
      · by_cases h2 : k1 = k
        · exfalso
          exact hnd.1 (List.mem_map.mpr ⟨(k, r), h1, by simp [h2]⟩)
        · simp [findRec, h2, ih hnd.2 h1]

/-! ### Invariants of reachable states -/

theorem nodup_keys_applyOp (s : StoreState) (now : Nat) (o : Op)
    (h : (s.map Prod.fst).Nodup) : ((applyOp s now o).map Prod.fst).Nodup := by
  cases o with
  | set k v => exact nodup_keys_insertRec s k ⟨v, none⟩ h
  | add k v =>
      simp only [applyOp, add]
      cases hf : findRec s k with
      | none => exact nodup_keys_insertRec s k ⟨v, none⟩ h
      | some r =>
          by_cases hl : isLive now r
          · simpa [hl] using h
          · simpa [hl] using nodup_keys_insertRec s k ⟨v, none⟩ h
  | setWithTimeout k v d => exact nodup_keys_insertRec s k ⟨v, some (now + d)⟩ h
  | setWithDeadline k v t => exact nodup_keys_insertRec s k ⟨v, some t⟩ h
  | update k v =>
      simp only [applyOp, update]
      cases hf : findRec s k with
      | none => exact h
      | some r =>
          by_cases hl : isLive now r
          · simpa [hl] using nodup_keys_insertRec s k ⟨v, r.expiry⟩ h
          · simpa [hl] using h
  | delete k =>
      simp only [applyOp, delete]
      cases hf : findRec s k with
      | none => exact h
      | some r => exact nodup_keys_filter s _ h
  | del k => exact nodup_keys_filter s _ h

theorem nodup_keys_runOps (ops : List (Nat × Op)) (s : StoreState)
    (h : (s.map Prod.fst).Nodup) : ((runOps s ops).map Prod.fst).Nodup := by
  induction ops generalizing s with
  | nil => exact h
  | cons p rest ih =>
      obtain ⟨t, o⟩ := p
      exact ih (applyOp s t o) (nodup_keys_applyOp s t o h)

theorem reachable_nodup_keys (s : StoreState) (h : Reachable s) :
    (s.map Prod.fst).Nodup := by
  obtain ⟨ops, hops⟩ := h
  rw [← hops]
  exact nodup_keys_runOps ops [] (by simp)

theorem findRec_applyOp_none (s : StoreState) (now : Nat) (o : Op) (k : String)
    (habs : findRec s k = none) (hw : o.writesTo k = false) :
    findRec (applyOp s now o) k = none := by
  cases o with
  | set k1 v =>
      have hne : k1 ≠ k := by simpa [Op.writesTo] using hw
      simpa [applyOp, set, findRec_insertRec_ne s k1 k _ hne] using habs
  | add k1 v =>
      have hne : k1 ≠ k := by simpa [Op.writesTo] using hw
      simp only [applyOp, add]
      cases hf : findRec s k1 with
      | none => simpa [findRec_insertRec_ne s k1 k _ hne] using habs
      | some r =>
          by_cases hl : isLive now r
          · simpa [hl] using habs
          · simpa [hl, findRec_insertRec_ne s k1 k _ hne] using habs
  | setWithTimeout k1 v d =>
      have hne : k1 ≠ k := by simpa [Op.writesTo] using hw
      simpa [applyOp, setWithTimeout, findRec_insertRec_ne s k1 k _ hne] using habs
  | setWithDeadline k1 v t =>
      have hne : k1 ≠ k := by simpa [Op.writesTo] using hw
      simpa [applyOp, setWithDeadline, findRec_insertRec_ne s k1 k _ hne] using habs
  | update k1 v =>
      simp only [applyOp, update]
      cases hf : findRec s k1 with
      | none => exact habs
      | some r =>
          by_cases hl : isLive now r
          · have hne : k1 ≠ k := by
              intro he
              rw [he, habs] at hf
              exact Option.noConfusion hf
            simpa [hl, findRec_insertRec_ne s k1 k _ hne] using habs
          · simpa [hl] using habs
  | delete k1 =>
      simp only [applyOp, delete]
      cases hf : findRec s k1 with
      | none => exact habs
      | some r => exact findRec_removeRec_none s k k1 habs
  | del k1 => exact findRec_removeRec_none s k k1 habs

theorem findRec_runOps_not_written (ops : List (Nat × Op)) (s : StoreState)
    (k : String) (habs : findRec s k = none)
    (hw : ∀ p ∈ ops, (p.2).writesTo k = false) :
    findRec (runOps s ops) k = none := by
  induction ops generalizing s with
  | nil => exact habs
  | cons p rest ih =>
      obtain ⟨t, o⟩ := p
      refine ih (applyOp s t o) ?_ (fun q hq => hw q (List.mem_cons_of_mem _ hq))
      exact findRec_applyOp_none s t o k habs (hw (t, o) (List.mem_cons_self _ _))

/-! ### Behaviour of GetAll -/

theorem getAll_spec (s : StoreState) (now : Nat) (c : Collection) :
    getAll s now c =
      ⟨c.items ++ (liveEntries s now).map (fun p => p.2.val),
       c.newCalls + (liveEntries s now).length⟩ := by
  induction s generalizing c with
  | nil => simp [getAll, liveEntries]
  | cons p rest ih =>
      obtain ⟨k, r⟩ := p
      by_cases hl : isLive now r
      · simp [getAll, hl, ih, liveEntries, collEmit, List.filter_cons,
          Nat.add_comm 1, Nat.add_assoc]
      · simp [getAll, hl, ih, liveEntries, List.filter_cons]

theorem removeRec_removeRec (s : StoreState) (k : String) :
    removeRec (removeRec s k) k = removeRec s k := by
  simp [removeRec, List.filter_filter]

/-! ### The claims -/

/-- Claim C1: for every key `k` that has never been written, `Get(k)`
returns `found = false` and a nil error — absence of a key is reported via
the boolean flag, never as an error. -/
theorem get_never_written (ops : List (Nat × Op)) (now : Nat) (k : String)
    (hw : ∀ p ∈ ops, (p.2).writesTo k = false) :
    get (runOps [] ops) now k = ⟨false, none, none⟩ := by
  have habs : findRec (runOps [] ops) k = none :=
    findRec_runOps_not_written ops [] k rfl hw
  simp [get, habs]

/-- Witness for C1: a trace that writes key "a" and even deletes key "b"
never writes "b", and `Get("b")` afterwards reports not-found, nil error. -/
theorem get_never_written_witness :
    get (runOps [] [((0 : Nat), Op.set "a" 1), (1, Op.del "b")]) 5 "b" =
      ⟨false, none, none⟩ :=
  get_never_written [((0 : Nat), Op.set "a" 1), (1, Op.del "b")] 5 "b" (by decide)

/-- Claim C2: `Add(k, v1)` on an absent key succeeds, a subsequent
`Add(k, v2)` fails with `ErrKeyExists`, and the state after both calls
equals the state after only the first call. -/
theorem add_twice (s : StoreState) (now now2 : Nat) (k : String) (v1 v2 : Nat)
    (habs : findRec s k = none) :
    (add s now k v1).2 = none ∧
      add (add s now k v1).1 now2 k v2 =
        ((add s now k v1).1, some StoreErr.errKeyExists) := by
  constructor
  · simp [add, habs]
  · simp [add, habs, findRec_insertRec_self, isLive]

/-- Witness for C2: adding key "k" twice to the empty store. -/
theorem add_twice_witness :
    (add ([] : StoreState) 0 "k" 1).2 = none ∧
      add (add ([] : StoreState) 0 "k" 1).1 3 "k" 2 =
        ((add ([] : StoreState) 0 "k" 1).1, some StoreErr.errKeyExists) :=
  add_twice [] 0 3 "k" 1 2 rfl

/-- Claim C3: in every reachable store state, no read operation (`Get`,
`GetAll`, `Keys`) observes a record whose expiry instant has passed: once
current time exceeds the expiry instant the record is absent for every
read, regardless of physical cleanup. -/
theorem no_read_observes_expired (s : StoreState) (hreach : Reachable s)
    (now : Nat) (k : String) (r : Record) (t : Nat) (c : Collection)
    (hf : findRec s k = some r) (he : r.expiry = some t) (ht : t < now) :
    get s now k = ⟨false, none, none⟩ ∧
      k ∉ keys s now ∧
      (k, r) ∉ liveEntries s now ∧
      getAll s now c =
        ⟨c.items ++ (liveEntries s now).map (fun p => p.2.val),
         c.newCalls + (liveEntries s now).length⟩ := by
  have hdead : isLive now r = false := by
    simp [isLive, he, Nat.not_le.mpr ht]
  have hnd : (s.map Prod.fst).Nodup := reachable_nodup_keys s hreach
  refine ⟨by simp [get, hf, hdead], ?_, ?_, getAll_spec s now c⟩
  · intro hmem
    rcases List.mem_map.mp hmem with ⟨p, hp, hfst⟩
    have hps : p ∈ s := List.mem_of_mem_filter hp
    have hlv : isLive now p.2 = true := by simpa using List.of_mem_filter hp
    have hrp : r = p.2 := by
      have h3 : findRec s k = some p.2 := by
        refine findRec_of_mem_nodup s k p.2 hnd ?_
        rwa [← hfst, Prod.mk.eta]
      rw [hf] at h3
      exact Option.some.inj h3
    rw [← hrp, hdead] at hlv
    exact Bool.false_ne_true hlv
  · intro hmem
    have : isLive now r = true := by simpa using List.of_mem_filter hmem
    rw [hdead] at this
    exact Bool.false_ne_true this

/-- Witness for C3: the reachable state produced by `SetWithDeadline` with
deadline 3, read at time 5. -/
theorem no_read_observes_expired_witness :
    get [("k", Record.mk 7 (some 3))] 5 "k" = ⟨false, none, none⟩ ∧
      "k" ∉ keys [("k", Record.mk 7 (some 3))] 5 ∧
      ("k", Record.mk 7 (some 3)) ∉ liveEntries [("k", Record.mk 7 (some 3))] 5 ∧
      getAll [("k", Record.mk 7 (some 3))] 5 ⟨[], 0⟩ =
        ⟨[] ++ (liveEntries [("k", Record.mk 7 (some 3))] 5).map (fun p => p.2.val),
         0 + (liveEntries [("k", Record.mk 7 (some 3))] 5).length⟩ :=
  no_read_observes_expired [("k", Record.mk 7 (some 3))]
    ⟨[((0 : Nat), Op.setWithDeadline "k" 7 3)], rfl⟩
    5 "k" (Record.mk 7 (some 3)) 3 ⟨[], 0⟩ rfl rfl (by decide)

/-- Claim C4: after `Set(k, v)`, `Get(k)` returns `found = true` and a
value equal to `v`, whether or not `k` existed before. -/
theorem set_then_get (s : StoreState) (now : Nat) (k : String) (v : Nat) :
    get (set s k v) now k = ⟨true, some v, none⟩ := by
  simp [get, set, findRec_insertRec_self, isLive]

/-- Claim C5: `Update(k, v)` on a key never written reports not-found and
leaves the store completely unchanged — `Update` never creates a key. -/
theorem update_never_written (ops : List (Nat × Op)) (now : Nat) (k : String)
    (v : Nat) (hw : ∀ p ∈ ops, (p.2).writesTo k = false) :
    update (runOps [] ops) now k v = (runOps [] ops, false) := by
  have habs : findRec (runOps [] ops) k = none :=
    findRec_runOps_not_written ops [] k rfl hw
  simp [update, habs]

/-- Witness for C5: updating the never-written key "b" after a trace that
only writes "a". -/
theorem update_never_written_witness :
    update (runOps [] [((0 : Nat), Op.set "a" 1)]) 4 "b" 9 =
      (runOps [] [((0 : Nat), Op.set "a" 1)], false) :=
  update_never_written [((0 : Nat), Op.set "a" 1)] 4 "b" 9 (by decide)

/-- Claim C6: after `SetWithTimeout(k, v, d)` at time `now` the record
expires at `now + d`: `Get(k)` at `now` succeeds with value `v`, and at any
instant strictly beyond `now + d` it returns `found = false`. -/
theorem setWithTimeout_lifespan (s : StoreState) (now : Nat) (k : String)
    (v d : Nat) :
    get (setWithTimeout s now k v d) now k = ⟨true, some v, none⟩ ∧
      ∀ now2, now + d < now2 →
        get (setWithTimeout s now k v d) now2 k = ⟨false, none, none⟩ := by
  constructor
  · simp [get, setWithTimeout, findRec_insertRec_self, isLive, Nat.le_add_right]
  · intro now2 h2
    simp [get, setWithTimeout, findRec_insertRec_self, isLive, Nat.not_le.mpr h2]

/-- Witness for C6: a five-tick timeout written at time 10 is readable at
time 10 and gone at time 16. -/
theorem setWithTimeout_lifespan_witness :
    get (setWithTimeout [] 10 "k" 7 5) 10 "k" = ⟨true, some 7, none⟩ ∧
      get (setWithTimeout [] 10 "k" 7 5) 16 "k" = ⟨false, none, none⟩ :=
  ⟨(setWithTimeout_lifespan [] 10 "k" 7 5).1,
   (setWithTimeout_lifespan [] 10 "k" 7 5).2 16 (by decide)⟩

/-- Claim C7: `SetWithDeadline(k, v, t)` with `t` already in the past
produces an immediately expired record: `Get(k)` at any instant at or after
the call returns `found = false`. -/
theorem setWithDeadline_past (s : StoreState) (now : Nat) (k : String)
    (v t : Nat) (ht : t < now) :
    ∀ now2, now ≤ now2 →
      get (setWithDeadline s k v t) now2 k = ⟨false, none, none⟩ := by
  intro now2 h2
  have : ¬ now2 ≤ t := Nat.not_le.mpr (Nat.lt_of_lt_of_le ht h2)
  simp [get, setWithDeadline, findRec_insertRec_self, isLive, this]

/-- Witness for C7: a deadline of 3 written at time 5 is not found at
time 5. -/
theorem setWithDeadline_past_witness :
    get (setWithDeadline [] "k" 7 3) 5 "k" = ⟨false, none, none⟩ :=
  setWithDeadline_past [] 5 "k" 7 3 (by decide) 5 (by decide)

/-- Claim C8: deleting the same key twice never errors on the second call:
the existence-reporting `Delete` reports `found = false` with a nil error
the second time, the idempotent `Del` returns a nil error both times, and
in both policies the state after two calls equals the state after one. -/
theorem delete_twice (s : StoreState) (now now2 : Nat) (k : String) :
    delete (delete s now k).1 now2 k = ((delete s now k).1, false, none) ∧
      (del s k).2 = none ∧
      del (del s k).1 k = ((del s k).1, none) := by
  refine ⟨?_, rfl, ?_⟩
  · set s1 := (delete s now k).1 with hs1
    have habs : findRec s1 k = none := by
      rw [hs1]
      cases hf : findRec s k with
      | none => simp [delete, hf]
      | some r => simp [delete, hf, findRec_removeRec_self s k]
    simp [delete, habs]
  · simp [del, removeRec_removeRec]

/-- Claim C9: `GetAll` populates the caller's collection with exactly the
currently-live records, calling `Collection.New` once per emitted record:
nothing expired is emitted and nothing live is omitted. -/
theorem getAll_exactly_live (s : StoreState) (now : Nat) (c : Collection) :
    getAll s now c =
      ⟨c.items ++ (liveEntries s now).map (fun p => p.2.val),
       c.newCalls + (liveEntries s now).length⟩ :=
  getAll_spec s now c

/-- Claim C10: `SetWithTimeout(k, v, d)` invoked at time `now` leaves the
store in exactly the state of `SetWithDeadline(k, v, now + d)`: the two
timed-write variants differ only in how the expiry instant is given. -/
theorem setWithTimeout_eq_setWithDeadline (s : StoreState) (now : Nat)
    (k : String) (v d : Nat) :
    setWithTimeout s now k v d = setWithDeadline s k v (now + d) := rfl

end GokvStore
